import Mathlib

/-
Verification of the traffic-vision batch ETL pipeline
(`datasets/clemson_dice_traffic_vision/pipelines/_images/run_csv_transform_kub/csv_transform.py`).

The Python source is shallowly embedded: the GCS client is modelled as the
list of object names in a bucket (listed in order, with `list_blobs(prefix=p)`
returning the names having `p` as a string prefix), Python strings are lists
of characters, and stateful loops become folds over the listed objects.
-/

set_option maxHeartbeats 1000000

namespace TrafficVision

/-- Python strings are modelled as lists of characters. -/
abbrev Str := List Char

/-! ### Batch group assignment (`process_batch_metadata_files`) -/

/-- Embeds the listing loop of `process_batch_metadata_files`: the running
counter `file_group_ordinal` (second argument) starts at 1, increments per
listed manifest, and wraps back to 1 once it exceeds `batch_group_size`.
A manifest is handed to `process_batch` exactly when the counter equals
`batch_ordinal`.  The result is the sub-list of manifests processed, in
listing order. -/
def processBatchAux (batch_group_size batch_ordinal : Int) :
    List α → Int → List α
  | [], _ => []
  | m :: ms, fgo =>
    (if fgo = batch_ordinal then [m] else []) ++
      processBatchAux batch_group_size batch_ordinal ms
        (if fgo + 1 > batch_group_size then 1 else fgo + 1)

/-- Embeds `process_batch_metadata_files` restricted to its selection logic:
which of the listed manifests the invocation with the given
`batch_group_size` and `batch_ordinal` processes. -/
def process_batch_metadata_files (manifests : List α)
    (batch_group_size batch_ordinal : Int) : List α :=
  processBatchAux batch_group_size batch_ordinal manifests 1

/-- An ordinal outside 1..batch_group_size never equals the wrapping counter,
so nothing is selected. -/
theorem processBatchAux_out {α : Type*} (G b : Int) (hb : b < 1 ∨ G < b) :
    ∀ (ms : List α) (fgo : Int), 1 ≤ fgo → fgo ≤ G →
      processBatchAux G b ms fgo = [] := by
  intro ms
  induction ms with
  | nil => intro fgo _ _; rfl
  | cons m t ih =>
    intro fgo h1 h2
    have hne : fgo ≠ b := by rcases hb with h | h <;> omega
    by_cases hg : fgo + 1 > G
    · simp only [processBatchAux, if_neg hne, if_pos hg, List.nil_append]
      exact ih 1 le_rfl (le_trans h1 h2)
    · simp only [processBatchAux, if_neg hne, if_neg hg, List.nil_append]
      exact ih (fgo + 1) (by omega) (by omega)

/-- Summed over all ordinals 1..G, the selected manifests recover the whole
listing as a multiset. -/
theorem processBatchAux_sum {α : Type*} (G : Int) :
    ∀ (ms : List α) (fgo : Int), 1 ≤ fgo → fgo ≤ G →
      (∑ b in Finset.Icc (1 : ℤ) G, (processBatchAux G b ms fgo : Multiset α))
        = (ms : Multiset α) := by
  intro ms
  induction ms with
  | nil => intro fgo _ _; simp [processBatchAux]
  | cons m t ih =>
    intro fgo h1 h2
    have hmem : fgo ∈ Finset.Icc (1 : ℤ) G := Finset.mem_Icc.mpr ⟨h1, h2⟩
    have hstep : ∀ b : ℤ, (processBatchAux G b (m :: t) fgo : Multiset α)
        = (if fgo = b then ({m} : Multiset α) else 0)
          + (processBatchAux G b t (if fgo + 1 > G then 1 else fgo + 1) : Multiset α) := by
      intro b
      by_cases h : fgo = b <;> simp [processBatchAux, h]
    rw [Finset.sum_congr rfl (fun b _ => hstep b), Finset.sum_add_distrib]
    have hone : (∑ b in Finset.Icc (1 : ℤ) G,
        if fgo = b then ({m} : Multiset α) else 0) = {m} := by
      rw [Finset.sum_ite_eq (Finset.Icc (1 : ℤ) G) fgo (fun _ => ({m} : Multiset α))]
      exact if_pos hmem
    have htail : (∑ b in Finset.Icc (1 : ℤ) G,
        (processBatchAux G b t (if fgo + 1 > G then 1 else fgo + 1) : Multiset α))
          = (t : Multiset α) := by
      by_cases hg : fgo + 1 > G
      · simp only [if_pos hg]
        exact ih 1 le_rfl (le_trans h1 h2)
      · simp only [if_neg hg]
        exact ih (fgo + 1) (by omega) (by omega)
    rw [hone, htail]
    simp [Multiset.cons_coe]

/-- Spec-facing selection used to state the amended C3: the manifest at
0-based listing index `i` is selected iff its cyclic slot `(i % G) + 1`
equals the ordinal. -/
def select_by_slot (G b : Int) : List α → Int → List α
  | [], _ => []
  | m :: ms, i =>
    (if i % G + 1 = b then [m] else []) ++ select_by_slot G b ms (i + 1)

/-- The wrapping counter of the source loop computes exactly the cyclic slot
of the 0-based listing index. -/
theorem processBatchAux_eq_select {α : Type*} (G b : Int) (hG : 1 ≤ G) :
    ∀ (ms : List α) (i : Int), 0 ≤ i →
      processBatchAux G b ms (i % G + 1) = select_by_slot G b ms i := by
  intro ms
  induction ms with
  | nil => intro i _; rfl
  | cons m t ih =>
    intro i hi
    have hGne : G ≠ 0 := by omega
    have hr0 : 0 ≤ i % G := Int.emod_nonneg i hGne
    have hrG : i % G < G := Int.emod_lt_of_pos i (by omega)
    have hsucc : (i + 1) % G = (i % G + 1) % G := by
      have hdm : i = G * (i / G) + i % G := (Int.ediv_add_emod i G).symm
      have h1 : i + 1 = (i % G + 1) + G * (i / G) := by omega
      rw [h1, Int.add_mul_emod_self_left]
    have hnext : (if i % G + 1 + 1 > G then (1 : ℤ) else i % G + 1 + 1)
        = (i + 1) % G + 1 := by
      by_cases hc : i % G + 1 = G
      · have : (i + 1) % G = 0 := by
          rw [hsucc, hc, Int.emod_self]
        rw [this]
        have : i % G + 1 + 1 > G := by omega
        rw [if_pos this]
        norm_num
      · have hlt : i % G + 1 < G := by omega
        have : (i + 1) % G = i % G + 1 := by
          rw [hsucc]
          exact Int.emod_eq_of_lt (by omega) hlt
        rw [this, if_neg (by omega)]
    show (if i % G + 1 = b then [m] else []) ++
        processBatchAux G b t (if i % G + 1 + 1 > G then 1 else i % G + 1 + 1)
      = (if i % G + 1 = b then [m] else []) ++ select_by_slot G b t (i + 1)
    rw [hnext, ih (i + 1) (by omega)]

/-! ### Claim theorems about batch group assignment -/

/-- C2: for every manifest list and every `batch_group_size = G ≥ 1`, the
assignment performed by `process_batch_metadata_files` is a partition — the
manifests processed by the ordinals 1..G jointly recover the full listing
(as a multiset, hence with no omission and no double-processing), and for
distinct ordinals the processed sets are disjoint (for duplicate-free
listings). -/
theorem C2_batch_group_partition {α : Type*} (ms : List α) (G : Int) (hG : 1 ≤ G) :
    ((∑ b in Finset.Icc (1 : ℤ) G,
        (process_batch_metadata_files ms G b : Multiset α)) = (ms : Multiset α))
    ∧ ∀ b₁ b₂ : Int, b₁ ≠ b₂ → ms.Nodup → ∀ x,
        x ∈ process_batch_metadata_files ms G b₁ →
          x ∉ process_batch_metadata_files ms G b₂ := by
  have hsum : (∑ b in Finset.Icc (1 : ℤ) G,
      (process_batch_metadata_files ms G b : Multiset α)) = (ms : Multiset α) :=
    processBatchAux_sum G ms 1 le_rfl hG
  refine ⟨hsum, ?_⟩
  intro b₁ b₂ hne hnd x hx1 hx2
  classical
  have hin : ∀ b : ℤ, (x ∈ process_batch_metadata_files ms G b) →
      b ∈ Finset.Icc (1 : ℤ) G := by
    intro b hb
    by_contra hout
    rw [Finset.mem_Icc] at hout
    push_neg at hout
    have : process_batch_metadata_files ms G b = [] := by
      rcases lt_or_le b 1 with h | h
      · exact processBatchAux_out G b (Or.inl h) ms 1 le_rfl hG
      · exact processBatchAux_out G b (Or.inr (hout h)) ms 1 le_rfl hG
    rw [this] at hb
    cases hb
  have hb₁ : b₁ ∈ Finset.Icc (1 : ℤ) G := hin b₁ hx1
  have hb₂ : b₂ ∈ Finset.Icc (1 : ℤ) G := hin b₂ hx2
  have hcount : Multiset.count x (ms : Multiset α) ≤ 1 :=
    Multiset.nodup_iff_count_le_one.mp (by simpa using hnd) x
  have hc1 : 1 ≤ Multiset.count x
      (process_batch_metadata_files ms G b₁ : Multiset α) := by
    rw [Multiset.one_le_count_iff_mem]
    simpa using hx1
  have hc2 : 1 ≤ Multiset.count x
      (process_batch_metadata_files ms G b₂ : Multiset α) := by
    rw [Multiset.one_le_count_iff_mem]
    simpa using hx2
  have hpair : ({b₁, b₂} : Finset ℤ) ⊆ Finset.Icc (1 : ℤ) G := by
    intro b hb
    rcases Finset.mem_insert.mp hb with rfl | hb
    · exact hb₁
    · rw [Finset.mem_singleton] at hb
      exact hb ▸ hb₂
  have hsub : (∑ b in ({b₁, b₂} : Finset ℤ),
      Multiset.count x (process_batch_metadata_files ms G b : Multiset α))
        ≤ ∑ b in Finset.Icc (1 : ℤ) G,
            Multiset.count x (process_batch_metadata_files ms G b : Multiset α) :=
    Finset.sum_le_sum_of_subset hpair
  rw [Finset.sum_pair hne] at hsub
  have htot : (∑ b in Finset.Icc (1 : ℤ) G,
      Multiset.count x (process_batch_metadata_files ms G b : Multiset α))
        = Multiset.count x (ms : Multiset α) := by
    rw [← Multiset.count_sum', hsum]
  omega

/-- Witness for C2 at a concrete input: three manifests, two worker slots. -/
theorem C2_batch_group_partition_witness :
    ((∑ b in Finset.Icc (1 : ℤ) 2,
        (process_batch_metadata_files [0, 1, 2] 2 b : Multiset ℕ))
          = ([0, 1, 2] : Multiset ℕ))
    ∧ ∀ b₁ b₂ : Int, b₁ ≠ b₂ → ([0, 1, 2] : List ℕ).Nodup → ∀ x,
        x ∈ process_batch_metadata_files [0, 1, 2] 2 b₁ →
          x ∉ process_batch_metadata_files [0, 1, 2] 2 b₂ :=
  C2_batch_group_partition [0, 1, 2] 2 (by decide)

/-- C3 counterexample: with two manifests, group size 2 and ordinal 2, the
code processes the manifest at listing index 1 (0-based: slot `1 % 2 + 1 = 2`),
yet neither `1 % 2` (0-based index) nor `2 % 2` (1-based index) equals the
ordinal 2 — so the claim's formula `manifest_index mod batch_group_size ==
batch_ordinal` selects nothing where the code selects one manifest, under
either indexing convention. -/
theorem C3_counterexample :
    process_batch_metadata_files [10, 20] 2 2 = ([20] : List ℕ)
    ∧ (1 : ℤ) % 2 ≠ 2 ∧ (2 : ℤ) % 2 ≠ 2 := by
  refine ⟨?_, by decide, by decide⟩
  rfl

/-- C3 amended: `process_batch_metadata_files` processes exactly the manifests
whose 0-based listing index `i` satisfies `(i mod batch_group_size) + 1 =
batch_ordinal` — the cyclic slot of a manifest is `(i mod G) + 1`, not
`i mod G`. -/
theorem C3_amended_slot_formula {α : Type*} (ms : List α) (G b : Int) (hG : 1 ≤ G) :
    process_batch_metadata_files ms G b = select_by_slot G b ms 0 := by
  have h := processBatchAux_eq_select G b hG ms 0 le_rfl
  rw [process_batch_metadata_files]
  rw [show (0 : ℤ) % G + 1 = 1 by rw [Int.zero_emod]; norm_num] at h
  exact h

/-- Witness for the amended C3 at a concrete input. -/
theorem C3_amended_slot_formula_witness :
    process_batch_metadata_files [10, 20, 30] 2 2 = select_by_slot 2 2 [10, 20, 30] 0 :=
  C3_amended_slot_formula [10, 20, 30] 2 2 (by decide)

/-- C10: for `batch_group_size = G ≥ 1` and a `batch_ordinal` outside 1..G,
no manifest is ever selected — the wrapping counter stays inside 1..G, so the
invocation processes nothing (hence performs no per-manifest download,
transform, upload, or delete). -/
theorem C10_out_of_range_ordinal_processes_nothing {α : Type*}
    (ms : List α) (G b : Int) (hG : 1 ≤ G) (hb : b < 1 ∨ G < b) :
    process_batch_metadata_files ms G b = [] :=
  processBatchAux_out G b hb ms 1 le_rfl hG

/-- Witness for C10 at a concrete input: ordinal 3 with group size 2. -/
theorem C10_out_of_range_ordinal_processes_nothing_witness :
    process_batch_metadata_files [5, 6, 7] 2 3 = ([] : List ℕ) :=
  C10_out_of_range_ordinal_processes_nothing [5, 6, 7] 2 3 (by decide)
    (by right; decide)

/-! ### String helpers mirroring the Python built-ins used by the source -/

/-- Index of the first occurrence of `pat` in a string, if any. -/
def findFrom (pat : Str) : Str → Option Nat
  | [] => if pat.isPrefixOf ([] : Str) then some 0 else none
  | c :: t => if pat.isPrefixOf (c :: t) then some 0 else (findFrom pat t).map (· + 1)

/-- Python `s.find(pat)`: index of the first occurrence of `pat` in `s`,
or -1 when absent. -/
def strFind (s pat : Str) : Int :=
  match findFrom pat s with
  | some i => (i : Int)
  | none => -1

/-- Python `os.path.basename`: the part after the last slash. -/
def basename (p : Str) : Str :=
  (p.reverse.takeWhile (fun c => c != '/')).reverse

/-- Fuel-driven worker for `strRemoveAll`; each step consumes at least one
character, so fuel equal to the string length suffices. -/
def strRemoveAllAux (pat : Str) : Nat → Str → Str
  | 0, _ => []
  | _, [] => []
  | fuel + 1, c :: t =>
    if pat ≠ [] ∧ pat.isPrefixOf (c :: t) then
      strRemoveAllAux pat fuel (t.drop (pat.length - 1))
    else
      c :: strRemoveAllAux pat fuel t

/-- Python `s.replace(pat, "")`: removes every non-overlapping occurrence of
`pat`, scanning left to right (the identity when `pat` is empty, as in
Python where replacing the empty string by the empty string changes
nothing). -/
def strRemoveAll (pat s : Str) : Str := strRemoveAllAux pat s.length s

/-- Decimal digit string of `n`, as Python `str(n)` for a non-negative int. -/
def natStr (n : Nat) : Str := Nat.toDigits 10 n

/-- Python `s.zfill(w)`: left-pad with zeros up to width `w`. -/
def zfill (w : Nat) (s : Str) : Str :=
  if s.length < w then List.replicate (w - s.length) '0' ++ s else s

/-! ### Manifest generation (`generate_batch_metadata_files`) -/

/-- One row of a batch manifest, as appended to `df_filelist`. -/
structure GenRecord where
  pathname : Str
  guid : Str
  batchnumber : Nat
deriving DecidableEq

/-- A manifest actually saved and uploaded: its local file path, the batch
number embedded (zero-padded) in its name, and its rows. -/
structure Manifest where
  fileName : Str
  number : Nat
  records : List GenRecord
deriving DecidableEq

/-- The mutable state threaded through the listing loop of
`generate_batch_metadata_files`: the in-memory record list `df_filelist`,
the counters `file_counter` and `batch_number`, and the manifests written
so far. -/
structure GenState where
  df : List GenRecord
  file_counter : Nat
  batch_number : Nat
  outputs : List Manifest
deriving DecidableEq

/-- The manifest path `{root}/{batch_folder}/batch_metadata-{zfill6 bn}.txt`
computed at the top of the listing loop. -/
def batchMetadataFilePath (root batchFolder : Str) (bn : Nat) : Str :=
  root ++ ['/'] ++ batchFolder ++ ['/'] ++ "batch_metadata-".toList
    ++ zfill 6 (natStr bn) ++ ".txt".toList

/-- Embeds `count_files_in_gcs_bucket`: counts the objects of the whole
bucket (no prefix restriction in the source) whose basename contains the
suffix at a positive index, or all objects when the suffix is empty. -/
def count_files_in_gcs_bucket (allBlobs : List Str) (file_type : Str) : Nat :=
  (allBlobs.filter
    (fun f => decide (0 < strFind (basename f) file_type) || file_type.isEmpty)).length

/-- Embeds the body of the listing loop of `generate_batch_metadata_files`
for a single listed object name `f`: skip non-matching names; at a flush
point (`file_counter % N = 0` or `file_counter = total`) save and upload the
pending records when `batch_number > 0`, reset the list and pre-increment
`batch_number`; then append the record for `f`. -/
def genStep (src_path file_type : Str) (n total : Nat) (root batchFolder : Str)
    (s : GenState) (f : Str) : GenState :=
  let bmfp := batchMetadataFilePath root batchFolder s.batch_number
  if 0 < strFind f file_type ∨ file_type = [] then
    let filenm := basename f
    let path := src_path ++ ['/'] ++ filenm
    let guid := strRemoveAll file_type filenm
    if s.file_counter % n = 0 ∨ s.file_counter = total then
      { df := [⟨path, guid, s.batch_number + 1⟩],
        file_counter := s.file_counter + 1,
        batch_number := s.batch_number + 1,
        outputs :=
          if 0 < s.batch_number then
            s.outputs ++ [⟨bmfp, s.batch_number, s.df⟩]
          else s.outputs }
    else
      { s with df := s.df ++ [⟨path, guid, s.batch_number⟩],
               file_counter := s.file_counter + 1 }
  else s

/-- Embeds `generate_batch_metadata_files`: the storage client is modelled by
the list of object names of the source bucket in listing order;
`list_blobs(prefix=p)` returns the names with string prefix `p`.  Returns
the manifests saved and uploaded, in order.  As in the source, the record
group still pending when the listing ends is discarded, and the total count
used by the flush condition is taken over the whole bucket. -/
def generate_batch_metadata_files (allBlobs : List Str)
    (prefix_folder src_path : Str) (source_file_batch_length : Nat)
    (root batchFolder file_type : Str) : List Manifest :=
  let total := count_files_in_gcs_bucket allBlobs file_type
  let listing := allBlobs.filter (fun f => prefix_folder.isPrefixOf f)
  (listing.foldl
    (genStep src_path file_type source_file_batch_length total root batchFolder)
    ⟨[], 0, 0, []⟩).outputs

/-- The spec's end-to-end example: a bucket holding exactly the five archives
`a.tar.gz` .. `e.tar.gz` under prefix `data/`. -/
def demoBlobs : List Str :=
  ["data/a.tar.gz".toList, "data/b.tar.gz".toList, "data/c.tar.gz".toList,
   "data/d.tar.gz".toList, "data/e.tar.gz".toList]

/-- Manifest generation on the five-object example with batch length 2. -/
def demoRun : List Manifest :=
  generate_batch_metadata_files demoBlobs "data/".toList "gs://src/data".toList 2
    "/root".toList "batch".toList ".tar.gz".toList

/-- C1: evaluated on five matching objects with batch length 2, the embedded
generator writes only 2 manifests with record counts [2, 2] — the guard
`file_counter == total` never fires (the counter stays below the total while
the loop runs), so the final group is never flushed and object `e` appears
in no manifest.  This contradicts the claimed `ceil(M/N) = 3` manifests with
counts [2, 2, 1] covering all objects. -/
theorem C1_code_eval :
    demoRun.length = 2
    ∧ demoRun.map (fun m => m.records.length) = [2, 2]
    ∧ (demoRun.map Manifest.records).flatten.map GenRecord.guid
        = ["a".toList, "b".toList, "c".toList, "d".toList] := by
  refine ⟨rfl, rfl, ?_⟩
  rfl

/-- C6 counterexample: on the five-object example the batch numbers of the
manifests actually written are [1, 2] — the filename of the first written
manifest is `batch_metadata-000001.txt`, so the numbering does not start
at 0 as claimed. -/
theorem C6_counterexample :
    demoRun.map Manifest.number = [1, 2]
    ∧ demoRun.map Manifest.fileName
        = ["/root/batch/batch_metadata-000001.txt".toList,
           "/root/batch/batch_metadata-000002.txt".toList]
    ∧ (demoRun.map Manifest.number).head? ≠ some 0 := by
  refine ⟨rfl, rfl, ?_⟩
  decide

/-- Loop invariant of manifest generation: the batch numbers written so far
are exactly 1, 2, …, in order, and `batch_number` is one ahead of the number
of written manifests once the first group has been opened. -/
def GenInv (s : GenState) : Prop :=
  s.outputs.map Manifest.number = List.range' 1 s.outputs.length
  ∧ ((s.batch_number = 0 ∧ s.outputs = []) ∨ s.batch_number = s.outputs.length + 1)

/-- The loop body preserves the numbering invariant. -/
theorem genStep_inv (sp ft : Str) (n total : Nat) (root bf : Str)
    (s : GenState) (f : Str) (h : GenInv s) :
    GenInv (genStep sp ft n total root bf s f) := by
  rcases h with ⟨hmap, hbn⟩
  unfold genStep GenInv
  by_cases h1 : 0 < strFind f ft ∨ ft = []
  · rw [if_pos h1]
    by_cases h2 : s.file_counter % n = 0 ∨ s.file_counter = total
    · rw [if_pos h2]
      by_cases h3 : 0 < s.batch_number
      · rcases hbn with ⟨hb0, _⟩ | hlen
        · omega
        · rw [if_pos h3]
          dsimp only
          refine ⟨?_, Or.inr ?_⟩
          · rw [List.length_append, List.length_singleton,
              List.range'_1_concat, List.map_append, hmap]
            simp [hlen, Nat.add_comm]
          · rw [List.length_append, List.length_singleton, hlen]
      · rcases hbn with ⟨hb0, hout⟩ | hlen
        · rw [if_neg h3]
          dsimp only
          refine ⟨hmap, Or.inr ?_⟩
          rw [hb0, hout]
          rfl
        · omega
    · rw [if_neg h2]
      exact ⟨hmap, hbn⟩
  · rw [if_neg h1]
    exact ⟨hmap, hbn⟩

/-- Folding the loop body over any listing preserves the invariant. -/
theorem genInv_foldl (sp ft : Str) (n total : Nat) (root bf : Str) :
    ∀ (l : List Str) (s : GenState), GenInv s →
      GenInv (l.foldl (genStep sp ft n total root bf) s) := by
  intro l
  induction l with
  | nil => intro s h; exact h
  | cons a t ih =>
    intro s h
    exact ih (genStep sp ft n total root bf s a) (genStep_inv sp ft n total root bf s a h)

/-- C6 amended: the batch numbers embedded in the manifest filenames actually
written form the consecutive increasing sequence 1, 2, … — the first emitted
manifest is numbered 1 (flush-then-increment order), not 0.  The hypothesis
`1 ≤ N` matches the source, where a zero batch length would raise
`ZeroDivisionError` before writing anything. -/
theorem C6_amended_numbers_start_at_one (allBlobs : List Str)
    (prefix_folder src_path : Str) (n : Nat) (root batchFolder file_type : Str)
    (hn : 1 ≤ n) :
    (generate_batch_metadata_files allBlobs prefix_folder src_path n
        root batchFolder file_type).map Manifest.number
      = List.range' 1
          (generate_batch_metadata_files allBlobs prefix_folder src_path n
            root batchFolder file_type).length := by
  have h := genInv_foldl src_path file_type n
    (count_files_in_gcs_bucket allBlobs file_type) root batchFolder
    (allBlobs.filter (fun f => prefix_folder.isPrefixOf f))
    ⟨[], 0, 0, []⟩ ⟨rfl, Or.inl ⟨rfl, rfl⟩⟩
  exact h.1

/-- Witness for the amended C6 at the five-object example. -/
theorem C6_amended_numbers_start_at_one_witness :
    1 ≤ 2 ∧
      (generate_batch_metadata_files demoBlobs "data/".toList "gs://src/data".toList 2
          "/root".toList "batch".toList ".tar.gz".toList).map Manifest.number
        = List.range' 1
            (generate_batch_metadata_files demoBlobs "data/".toList "gs://src/data".toList 2
              "/root".toList "batch".toList ".tar.gz".toList).length :=
  ⟨by decide,
    C6_amended_numbers_start_at_one demoBlobs "data/".toList "gs://src/data".toList 2
      "/root".toList "batch".toList ".tar.gz".toList (by decide)⟩

/-! ### Per-batch processing (`process_batch`) -/

/-- Filesystem and storage effects performed by `process_batch`, in program
order. -/
inductive FsOp where
  | downloadManifest (name : Str)
  | downloadArchive (path : Str)
  | extractArchive (path : Str)
  | addIdRewrite (guid : Str)
  | uploadLoadFile (guid : Str)
  | unlinkArchive (path : Str)
  | unlinkLoadFile (path : Str)
  | rmtreeUnpackDir (path : Str)
  | unlinkManifestFile (name : Str)
deriving DecidableEq

/-- One parsed row of a manifest, as consumed by `process_batch`. -/
structure BatchRecord where
  pathname : Str
  guid : Str
deriving DecidableEq

/-- Embeds the effect trace of `process_batch`, faithful to the statement
order of the source: download the manifest locally, then for each record
download the archive, extract it, rewrite the log with the id column, upload
the rewritten file, unlink the archive, unlink the rewritten file, remove
the unpack directory — and, still inside the per-record loop, unlink the
local manifest file. -/
def process_batch (root srcF unpF loadF batchF : Str) (batch_filename : Str)
    (records : List BatchRecord) : List FsOp :=
  let localManifest := root ++ ['/'] ++ batchF ++ ['/'] ++ basename batch_filename
  FsOp.downloadManifest batch_filename ::
    (records.map (fun r =>
      let filename := basename r.pathname
      let source_tar := root ++ ['/'] ++ srcF ++ ['/'] ++ filename
      let dest_json := root ++ ['/'] ++ loadF ++ ['/'] ++ "out".toList
        ++ r.guid ++ ".log".toList
      [FsOp.downloadArchive r.pathname,
       FsOp.extractArchive source_tar,
       FsOp.addIdRewrite r.guid,
       FsOp.uploadLoadFile r.guid,
       FsOp.unlinkArchive source_tar,
       FsOp.unlinkLoadFile dest_json,
       FsOp.rmtreeUnpackDir (root ++ ['/'] ++ unpF ++ ['/'] ++ r.guid),
       FsOp.unlinkManifestFile localManifest])).flatten

/-- Effect trace of `process_batch` on a two-record manifest. -/
def demoBatchTrace : List FsOp :=
  process_batch "/root".toList "src".toList "unp".toList "load".toList "batch".toList
    "batch/m.txt".toList
    [⟨"gs://b/a.tar.gz".toList, "a".toList⟩, ⟨"gs://b/b.tar.gz".toList, "b".toList⟩]

/-- C4: on a manifest with two records, the embedded trace unlinks the local
manifest file twice — once per loop iteration — and the first unlink happens
before the second record is even downloaded; per-record artifacts (archive,
rewritten file, unpack directory) are deleted once per record as claimed.
This refutes "deleted exactly once, only after the last record has been
processed": the source's `os.unlink(batch_filename)` sits inside the
per-record loop, so the second iteration's unlink targets an
already-deleted file. -/
theorem C4_code_eval :
    demoBatchTrace.count (FsOp.unlinkManifestFile "/root/batch/m.txt".toList) = 2
    ∧ demoBatchTrace.indexOf (FsOp.unlinkManifestFile "/root/batch/m.txt".toList)
        < demoBatchTrace.indexOf (FsOp.downloadArchive "gs://b/b.tar.gz".toList)
    ∧ demoBatchTrace.count (FsOp.unlinkArchive "/root/src/a.tar.gz".toList) = 1
    ∧ demoBatchTrace.count (FsOp.unlinkLoadFile "/root/load/outa.log".toList) = 1
    ∧ demoBatchTrace.count (FsOp.rmtreeUnpackDir "/root/unp/a".toList) = 1 := by
  refine ⟨rfl, by decide, rfl, rfl, rfl⟩

/-! ### Record transform (`add_id_column`) -/

/-- Single-quote character (code point 39), written by code point. -/
def squote : Char := Char.ofNat 39

/-- Opening-brace character (code point 123), written by code point. -/
def obrace : Char := Char.ofNat 123

/-- Backslash character. -/
def bslash : Char := '\\'

/-- Embeds the shell command string that `add_id_column` builds and passes to
`subprocess.check_call(..., shell=True)`.  After Python f-string processing,
the command is

  `sed -i -e 's/<ob>\"frame\"/<ob>"id": \"<guid>\", \"frame\"/g'<dest>`

(with `<ob>` the opening brace) — note that the destination file path
follows the closing quote with no separating space, exactly as in the
source line. -/
def add_id_column_cmd (guid dest : Str) : Str :=
  "sed -i -e ".toList ++ [squote] ++ "s/".toList ++ [obrace]
    ++ "\\\"frame\\\"/".toList ++ [obrace] ++ "\"id\": \\\"".toList
    ++ guid ++ "\\\", \\\"frame\\\"/g".toList ++ [squote] ++ dest

/-- Minimal POSIX-shell word splitting sufficient for the command at hand:
unquoted spaces separate words; single quotes group text verbatim and are
removed.  The accumulator holds the current word reversed, `none` when no
word is open. -/
def shellWordsAux : List Char → Bool → Option Str → List Str
  | [], _, none => []
  | [], _, some cur => [cur.reverse]
  | ch :: t, true, cur =>
    if ch = squote then shellWordsAux t false (some (cur.getD []))
    else shellWordsAux t true (some (ch :: cur.getD []))
  | ch :: t, false, cur =>
    if ch = squote then shellWordsAux t true (some (cur.getD []))
    else if ch = ' ' then
      match cur with
      | none => shellWordsAux t false none
      | some w => w.reverse :: shellWordsAux t false none
    else shellWordsAux t false (some (ch :: cur.getD []))

/-- Words of a shell command under the minimal splitting model. -/
def shellWords (cmd : Str) : List Str := shellWordsAux cmd false none

/-- Drops the text up to and including the `n`-th unescaped occurrence of the
delimiter `d` (a backslash escapes the following character), returning the
remainder — for a sed `s` command body, three delimiters in lead to the
flags field. -/
def afterDelims (d : Char) : Nat → Str → Str
  | 0, s => s
  | _ + 1, [] => []
  | n + 1, ch :: t =>
    if ch = bslash then
      match t with
      | [] => []
      | _ :: t2 => afterDelims d (n + 1) t2
    else if ch = d then afterDelims d n t
    else afterDelims d (n + 1) t

/-- The command built for guid "g" and destination "/x/out.log". -/
def demoCmd : Str := add_id_column_cmd "g".toList "/x/out.log".toList

/-- The single word the shell hands to sed after `-e`: the substitution
script with the destination path glued onto its flags field. -/
def demoScriptWord : Str :=
  "s/".toList ++ [obrace] ++ "\\\"frame\\\"/".toList ++ [obrace]
    ++ "\"id\": \\\"g\\\", \\\"frame\\\"/g/x/out.log".toList

/-- C5: the command `add_id_column` builds splits into exactly four shell
words — `sed`, `-i`, `-e`, and one script word — so sed receives no file
operand at all: the missing space before the destination path glues the path
onto the quoted script.  The flags field of that `s` command (the text after
its third unescaped delimiter) is `g/x/out.log` instead of `g`; sed rejects
such a flags field, so `subprocess.check_call` raises and no line is ever
transformed, contradicting the claimed insert-id-after-brace behavior. -/
theorem C5_code_eval :
    shellWords demoCmd = ["sed".toList, "-i".toList, "-e".toList, demoScriptWord]
    ∧ afterDelims '/' 3 (demoScriptWord.drop 1) = "g/x/out.log".toList
    ∧ afterDelims '/' 3 (demoScriptWord.drop 1) ≠ "g".toList := by
  refine ⟨rfl, rfl, by decide⟩

/-! ### Remote pre-clean (`remove_gcs_path` and main's generate branch) -/

/-- Strips trailing slashes, as `posixpath.split` does to the head part. -/
def rstripSlashes (l : Str) : Str :=
  (l.reverse.dropWhile (fun c => c == '/')).reverse

/-- Python `os.path.split(p)[0]` (posix): everything up to the last slash,
with trailing slashes stripped unless the head is empty or all slashes. -/
def pathSplitHead (p : Str) : Str :=
  let head := (p.reverse.dropWhile (fun c => c != '/')).reverse
  if head ≠ [] ∧ head.any (fun c => c != '/') then rstripSlashes head else head

/-- Embeds `remove_gcs_path`: the bucket is modelled by its list of object
names; `delete_blobs(list_blobs(prefix = os.path.split(gcs_path)[0] + "/"))`
removes every object whose name starts with the parent of the given path.
Returns the objects remaining in the bucket. -/
def remove_gcs_path (bucket : List Str) (gcs_path : Str) : List Str :=
  let drop_path := pathSplitHead gcs_path
  bucket.filter (fun k => !((drop_path ++ ['/']).isPrefixOf k))

/-- Embeds the pre-clean step of main's `generate_batch_metadata_files`
branch: `remove_gcs_path` on `{target_gcs_path}/{target_load_folder}` and
then on `{target_gcs_path}/{target_batch_folder}`. -/
def preCleanGenerate (bucket : List Str)
    (target_gcs_path target_load_folder target_batch_folder : Str) : List Str :=
  remove_gcs_path
    (remove_gcs_path bucket (target_gcs_path ++ ['/'] ++ target_load_folder))
    (target_gcs_path ++ ['/'] ++ target_batch_folder)

/-- C7 counterexample: with destination prefix `data/tv`, the object
`data/tv/src/x.tar.gz` lies under neither `data/tv/load` nor
`data/tv/batch`, yet the pre-clean deletes it — `remove_gcs_path` drops the
last component of the path it is given and clears everything under
`data/tv/`, refuting the claimed frame condition. -/
theorem C7_counterexample :
    preCleanGenerate ["data/tv/src/x.tar.gz".toList]
        "data/tv".toList "load".toList "batch".toList = []
    ∧ ("data/tv/load".toList).isPrefixOf "data/tv/src/x.tar.gz".toList = false
    ∧ ("data/tv/batch".toList).isPrefixOf "data/tv/src/x.tar.gz".toList = false := by
  refine ⟨rfl, rfl, rfl⟩

/-- Auxiliary: dropWhile skips a block on which the predicate holds. -/
theorem dropWhile_append_of_all {α : Type*} {p : α → Bool} (l₁ l₂ : List α)
    (h : ∀ x ∈ l₁, p x = true) :
    (l₁ ++ l₂).dropWhile p = l₂.dropWhile p := by
  induction l₁ with
  | nil => rfl
  | cons a t ih =>
    rw [List.cons_append, List.dropWhile_cons, if_pos (h a (by simp))]
    exact ih (fun x hx => h x (by simp [hx]))

/-- For a path `tgp/f` whose last component `f` contains no slash and whose
parent `tgp` ends in a non-slash character, `os.path.split` returns the
parent unchanged. -/
theorem pathSplitHead_parent (t : Str) (c : Char) (hc : c ≠ '/') (f : Str)
    (hf : ∀ x ∈ f, x ≠ '/') :
    pathSplitHead ((t ++ [c]) ++ '/' :: f) = t ++ [c] := by
  have hrev : ((t ++ [c]) ++ '/' :: f).reverse = f.reverse ++ '/' :: (c :: t.reverse) := by
    simp
  have hdropAll : (f.reverse ++ '/' :: (c :: t.reverse)).dropWhile (fun x => x != '/')
      = '/' :: (c :: t.reverse) := by
    rw [dropWhile_append_of_all _ _ (fun x hx => by
      rw [List.mem_reverse] at hx
      simpa using hf x hx)]
    rw [List.dropWhile_cons]
    simp
  have hhead : ((((t ++ [c]) ++ '/' :: f).reverse.dropWhile (fun x => x != '/')).reverse : Str)
      = (t ++ [c]) ++ ['/'] := by
    rw [hrev, hdropAll]
    simp
  unfold pathSplitHead
  rw [hhead]
  rw [if_pos ?side]
  case side =>
    refine ⟨by simp, ?_⟩
    rw [List.any_eq_true]
    exact ⟨c, by simp, by simpa using hc⟩
  unfold rstripSlashes
  have : (((t ++ [c]) ++ ['/']).reverse : Str) = '/' :: (c :: t.reverse) := by simp
  rw [this, List.dropWhile_cons, if_pos (by simp), List.dropWhile_cons,
    if_neg (by simpa using hc)]
  simp

/-- C7 amended: provided the two folder names contain no slash and the
destination prefix ends in a non-slash character, the pre-clean deletes
exactly the objects under `{target_gcs_path}/` — the parent of both given
paths — which strictly includes (and is not limited to) the claimed
batch-manifest and load-output prefixes. -/
theorem C7_amended_precleans_whole_destination (bucket : List Str)
    (t : Str) (c : Char) (hc : c ≠ '/') (loadF batchF : Str)
    (hl : ∀ x ∈ loadF, x ≠ '/') (hb : ∀ x ∈ batchF, x ≠ '/') :
    preCleanGenerate bucket (t ++ [c]) loadF batchF
      = bucket.filter (fun k => !(((t ++ [c]) ++ ['/']).isPrefixOf k)) := by
  unfold preCleanGenerate remove_gcs_path
  have hL : pathSplitHead ((t ++ [c]) ++ ['/'] ++ loadF) = t ++ [c] := by
    rw [List.append_assoc (t ++ [c]) ['/'] loadF]
    exact pathSplitHead_parent t c hc loadF hl
  have hB : pathSplitHead ((t ++ [c]) ++ ['/'] ++ batchF) = t ++ [c] := by
    rw [List.append_assoc (t ++ [c]) ['/'] batchF]
    exact pathSplitHead_parent t c hc batchF hb
  rw [hL, hB, List.filter_filter]
  congr 1
  funext k
  exact Bool.and_self _

/-- Witness for the amended C7 at a concrete bucket and configuration. -/
theorem C7_amended_precleans_whole_destination_witness :
    preCleanGenerate
        ["data/tv/src/x.tar.gz".toList, "other/y".toList]
        ("data/t".toList ++ ['v']) "load".toList "batch".toList
      = (["data/tv/src/x.tar.gz".toList, "other/y".toList] : List Str).filter
          (fun k => !((("data/t".toList ++ ['v']) ++ ['/']).isPrefixOf k)) :=
  C7_amended_precleans_whole_destination
    ["data/tv/src/x.tar.gz".toList, "other/y".toList]
    "data/t".toList 'v' (by decide) "load".toList "batch".toList
    (by decide) (by decide)

/-! ### Retry wrapper (`@retry` on `main`) -/

/-- Cumulative wall-clock milliseconds after the first `m` attempts, where
`dur n` is the time attributed to the 1-based attempt `n` (its call plus the
following back-off sleep). -/
def cumDur (dur : Nat → Nat) : Nat → Nat
  | 0 => 0
  | m + 1 => cumDur dur m + dur (m + 1)

/-- Modelled from the spec: the third-party `retrying` decorator on `main`
(`stop_max_attempt_number=7`, `stop_max_delay=300000`) is not part of this
repository's sources, so its loop is modelled from the spec's words —
call the wrapped function; on success return; on error stop and re-raise the
last error once the attempt number has reached the maximum or the elapsed
milliseconds since the first attempt have reached the delay budget,
otherwise retry.  `att n` is the outcome of the 1-based `n`-th call, `dur`
as in `cumDur`.  Returns the final outcome together with the number of the
last attempt made. -/
def retryRun (maxAttempts maxDelay : Nat) (att : Nat → Except E A)
    (dur : Nat → Nat) (n elapsed : Nat) : Except E A × Nat :=
  match att n with
  | Except.ok a => (Except.ok a, n)
  | Except.error e =>
    if h : maxAttempts ≤ n ∨ maxDelay ≤ elapsed + dur n then (Except.error e, n)
    else retryRun maxAttempts maxDelay att dur (n + 1) (elapsed + dur n)
termination_by maxAttempts - n
decreasing_by omega

/-- The retry wrapper with the decorator parameters of the source:
`stop_max_attempt_number=7`, `stop_max_delay=300000` milliseconds. -/
def retryMain (att : Nat → Except E A) (dur : Nat → Nat) : Except E A × Nat :=
  retryRun 7 300000 att dur 1 0

/-- Behavior of the retry loop from any start state, when every attempt
fails. -/
theorem retryRun_spec {E A : Type*} (att : Nat → Except E A) (errs : Nat → E)
    (dur : Nat → Nat) (hf : ∀ n, att n = Except.error (errs n)) :
    ∀ (d n : Nat), n + d = 7 → 1 ≤ n →
      (n ≤ (retryRun 7 300000 att dur n (cumDur dur (n - 1))).2
        ∧ (retryRun 7 300000 att dur n (cumDur dur (n - 1))).2 ≤ 7)
      ∧ (retryRun 7 300000 att dur n (cumDur dur (n - 1))).1
          = Except.error (errs (retryRun 7 300000 att dur n (cumDur dur (n - 1))).2)
      ∧ ∀ m, n ≤ m → m < (retryRun 7 300000 att dur n (cumDur dur (n - 1))).2 →
          cumDur dur m < 300000 := by
  intro d
  induction d with
  | zero =>
    intro n h7 h1
    have hn : n = 7 := by omega
    subst hn
    rw [retryRun, hf 7]
    dsimp only
    rw [dif_pos (Or.inl (le_refl 7))]
    exact ⟨⟨le_rfl, le_rfl⟩, rfl, fun m hm1 hm2 => absurd (lt_of_le_of_lt hm1 hm2) (lt_irrefl 7)⟩
  | succ d ih =>
    intro n h7 h1
    have hcum : cumDur dur (n - 1) + dur n = cumDur dur n := by
      have hn1 : n - 1 + 1 = n := by omega
      conv_rhs => rw [← hn1]
      rw [cumDur, hn1]
    rw [retryRun, hf n]
    dsimp only
    by_cases hstop : 7 ≤ n ∨ 300000 ≤ cumDur dur (n - 1) + dur n
    · rw [dif_pos hstop]
      exact ⟨⟨le_rfl, by omega⟩, rfl,
        fun m hm1 hm2 => absurd (lt_of_le_of_lt hm1 hm2) (lt_irrefl n)⟩
    · rw [dif_neg hstop]
      push_neg at hstop
      have hrec := ih (n + 1) (by omega) (by omega)
      rw [show n + 1 - 1 = n by omega] at hrec
      rw [← hcum] at hrec
      refine ⟨⟨by omega, hrec.1.2⟩, hrec.2.1, ?_⟩
      intro m hm1 hm2
      rcases Nat.eq_or_lt_of_le hm1 with rfl | hlt
      · rw [← hcum]
        exact hstop.2
      · exact hrec.2.2 m hlt hm2

/-- C8: when every inner call raises, the wrapper makes between 1 and 7
attempts, the result propagated is the error of the last attempt made, and
it only proceeded past an attempt while the cumulative elapsed time was
still under the 300000 ms budget (so reaching the budget stops further
attempts). -/
theorem C8_retry_bounds {E A : Type*} (att : Nat → Except E A) (errs : Nat → E)
    (dur : Nat → Nat) (hf : ∀ n, att n = Except.error (errs n)) :
    (1 ≤ (retryMain att dur).2 ∧ (retryMain att dur).2 ≤ 7)
    ∧ (retryMain att dur).1 = Except.error (errs (retryMain att dur).2)
    ∧ ∀ m, 1 ≤ m → m < (retryMain att dur).2 → cumDur dur m < 300000 := by
  have h := retryRun_spec att errs dur hf 6 1 (by omega) le_rfl
  rw [show (1 : ℕ) - 1 = 0 from rfl] at h
  rw [show cumDur dur 0 = 0 from rfl] at h
  exact ⟨⟨h.1.1, h.1.2⟩, h.2.1, h.2.2⟩

/-- Witness for C8: a call that always raises, one millisecond per attempt. -/
theorem C8_retry_bounds_witness :
    (1 ≤ (retryMain (fun n => (Except.error n : Except Nat Unit)) (fun _ => 1)).2
      ∧ (retryMain (fun n => (Except.error n : Except Nat Unit)) (fun _ => 1)).2 ≤ 7)
    ∧ (retryMain (fun n => (Except.error n : Except Nat Unit)) (fun _ => 1)).1
        = Except.error ((retryMain (fun n => (Except.error n : Except Nat Unit)) (fun _ => 1)).2)
    ∧ ∀ m, 1 ≤ m →
        m < (retryMain (fun n => (Except.error n : Except Nat Unit)) (fun _ => 1)).2 →
          cumDur (fun _ => 1) m < 300000 :=
  C8_retry_bounds (fun n => Except.error n) (fun n => n) (fun _ => 1) (fun _ => rfl)

/-! ### Top-level dispatch (`main`) -/

/-- Effects of one `main` invocation at the granularity the dispatch claim
needs: local directory creation versus remote/shell work. -/
inductive MainOp where
  | makedirs (path : Str)
  | gsutilCopy
  | removeGcs (path : Str)
  | generateManifestsOp
  | processBatchGroupOp
deriving DecidableEq

/-- Whether an operation touches only the local filesystem. -/
def MainOp.isLocal : MainOp → Bool
  | MainOp.makedirs _ => true
  | _ => false

/-- Embeds `generate_folder_hierarchy`: for each of the five staging paths,
emits a `makedirs` call when the path does not yet exist. -/
def generate_folder_hierarchy (pathExists : Str → Bool)
    (root srcF unpF loadF batchF : Str) : List MainOp :=
  (if pathExists root then [] else [MainOp.makedirs root]) ++
  (if pathExists (root ++ ['/'] ++ srcF) then []
    else [MainOp.makedirs (root ++ ['/'] ++ srcF)]) ++
  (if pathExists (root ++ ['/'] ++ unpF) then []
    else [MainOp.makedirs (root ++ ['/'] ++ unpF)]) ++
  (if pathExists (root ++ ['/'] ++ loadF) then []
    else [MainOp.makedirs (root ++ ['/'] ++ loadF)]) ++
  (if pathExists (root ++ ['/'] ++ batchF) then []
    else [MainOp.makedirs (root ++ ['/'] ++ batchF)])

/-- Embeds the dispatch structure of `main`: first the staging folder
hierarchy is ensured, then exactly one branch runs on `pipeline_name` —
the gsutil bulk copy, the pre-clean plus manifest generation, the batch
group processing, or (any other name) nothing at all. -/
def main_dispatch (pathExists : Str → Bool) (pipeline_name : Str)
    (tgp root srcF unpF loadF batchF : Str) : List MainOp :=
  generate_folder_hierarchy pathExists root srcF unpF loadF batchF ++
    (if pipeline_name = "transfer_source".toList then [MainOp.gsutilCopy]
     else if pipeline_name = "generate_batch_metadata_files".toList then
       [MainOp.removeGcs (tgp ++ ['/'] ++ loadF),
        MainOp.removeGcs (tgp ++ ['/'] ++ batchF),
        MainOp.generateManifestsOp]
     else if pipeline_name = "run_batch_data".toList then [MainOp.processBatchGroupOp]
     else [])

/-- Membership in a conditional singleton pins the element down. -/
theorem eq_of_mem_if_nil {b : Prop} [Decidable b] {x op : MainOp}
    (h : op ∈ if b then ([] : List MainOp) else [x]) : op = x := by
  split at h
  · cases h
  · simpa using h

/-- Every effect of the staging-area manager is a local makedirs. -/
theorem generate_folder_hierarchy_local (pathExists : Str → Bool)
    (root srcF unpF loadF batchF : Str) :
    ∀ op ∈ generate_folder_hierarchy pathExists root srcF unpF loadF batchF,
      op.isLocal = true := by
  intro op hop
  unfold generate_folder_hierarchy at hop
  simp only [List.mem_append] at hop
  rcases hop with ((((h | h) | h) | h) | h) <;>
    rw [eq_of_mem_if_nil h] <;> rfl

/-- C9: for any `pipeline_name` other than the three dispatch keys
(including the empty string), `main` only ensures the local staging folder
hierarchy and performs no remote listing, download, upload, deletion, or
shell copy. -/
theorem C9_unknown_pipeline_only_local (pathExists : Str → Bool)
    (pn tgp root srcF unpF loadF batchF : Str)
    (h1 : pn ≠ "transfer_source".toList)
    (h2 : pn ≠ "generate_batch_metadata_files".toList)
    (h3 : pn ≠ "run_batch_data".toList) :
    main_dispatch pathExists pn tgp root srcF unpF loadF batchF
      = generate_folder_hierarchy pathExists root srcF unpF loadF batchF
    ∧ ∀ op ∈ main_dispatch pathExists pn tgp root srcF unpF loadF batchF,
        op.isLocal = true := by
  have he : main_dispatch pathExists pn tgp root srcF unpF loadF batchF
      = generate_folder_hierarchy pathExists root srcF unpF loadF batchF := by
    unfold main_dispatch
    rw [if_neg h1, if_neg h2, if_neg h3, List.append_nil]
  refine ⟨he, ?_⟩
  intro op hop
  rw [he] at hop
  exact generate_folder_hierarchy_local pathExists root srcF unpF loadF batchF op hop

/-- Witness for C9 at the empty pipeline name and a concrete configuration. -/
theorem C9_unknown_pipeline_only_local_witness :
    main_dispatch (fun _ => false) [] "data/tv".toList "/root".toList
        "src".toList "unp".toList "load".toList "batch".toList
      = generate_folder_hierarchy (fun _ => false) "/root".toList
          "src".toList "unp".toList "load".toList "batch".toList
    ∧ ∀ op ∈ main_dispatch (fun _ => false) [] "data/tv".toList "/root".toList
        "src".toList "unp".toList "load".toList "batch".toList,
          op.isLocal = true :=
  C9_unknown_pipeline_only_local (fun _ => false) [] "data/tv".toList "/root".toList
    "src".toList "unp".toList "load".toList "batch".toList
    (by decide) (by decide) (by decide)

end TrafficVision
